import Mathlib

/-!
Verification of the model-listing core of the sochai backend
(`src/models/Model.js`: the mongoose `modelSchema` with its pre-save slug
hook, and the express router for the `/api/models` endpoints).

Modelling conventions:
* Object ids are `String`s; `isValidObjectId` models
  `mongoose.Types.ObjectId.isValid` (24 hex chars, or any 12-char string).
* The database is a `List Listing`; `findOne`/`findById` become `List.find?`.
  A mongoose cast failure on a malformed id (which rejects the promise and is
  answered by the route's catch-all `500` handler) is modelled by the
  `Except`-valued lookups below returning `.error`.
* JS strings are modelled as Lean `String`s; `toLowerCase`/`trim` are
  modelled by `jsToLower`/`jsTrim` below (ASCII case mapping; every string
  in the spec and the claims is ASCII).
* `new RegExp(search, 'i')` applied to a literal (metacharacter-free) search
  term is a case-insensitive substring test, which is how the search filter
  is modelled (`ciContains`).
* Numbers (`page`, `limit`, counters, timestamps) are `Nat`; the routes read
  them from the query string with JS numeric coercion, which agrees with
  this model on the numeric inputs the claims are about.
-/

/-! ## Data model (modelSchema, src/models/Model.js lines 3-145) -/

structure Listing where
  id : String
  name : String
  slug : String
  shortDescription : String
  longDescription : Option String
  category : String
  tags : List String
  provider : String
  pricing : String
  rating : Nat
  reviewsCount : Nat
  installsCount : Nat
  capabilities : List String
  isApiAvailable : Bool
  isOpenSource : Bool
  modelType : Option String
  externalUrl : Option String
  iconUrl : Option String
  screenshots : List String
  featured : Bool
  trendingScore : Nat
  bestFor : List String
  features : List String
  examplePrompts : List String
  uploadedBy : String
  status : String
  rejectionReason : Option String
  createdAt : Nat
  updatedAt : Nat
deriving Repr, DecidableEq

/-- The referenced `User` document (external entity; only the fields the
model routes touch: `populate('uploadedBy', 'firstName lastName')` and the
admin variant that also selects `email`). -/
structure User where
  id : String
  firstName : String
  lastName : String
  email : String
  password : String
deriving Repr, DecidableEq

/-! ## JS string primitives

`String.trim`, `String.toLower` and `List.mergeSort` from the Lean library
are defined by well-founded recursion and do not reduce inside the kernel,
so the embedding uses structurally recursive equivalents. -/

/-- `String.prototype.trim()`. -/
def jsTrim (s : String) : String :=
  ⟨((s.data.dropWhile Char.isWhitespace).reverse.dropWhile
      Char.isWhitespace).reverse⟩

/-- `String.prototype.toLowerCase()` (ASCII case mapping). -/
def jsToLower (s : String) : String :=
  ⟨s.data.map Char.toLower⟩

/-- Insert into a sorted list, before the first element it compares
`le`-true against (stable). -/
def insertBy (le : Listing → Listing → Bool) (a : Listing) :
    List Listing → List Listing
  | [] => [a]
  | b :: t => if le a b then a :: b :: t else b :: insertBy le a t

/-- Stable insertion sort, modelling the storage layer's stable sort. -/
def sortBy (le : Listing → Listing → Bool) : List Listing → List Listing
  | [] => []
  | a :: t => insertBy le a (sortBy le t)

/-! ## Object ids -/

def isHexDigit (c : Char) : Bool :=
  ('0' ≤ c && c ≤ '9') || ('a' ≤ c && c ≤ 'f') || ('A' ≤ c && c ≤ 'F')

/-- `mongoose.Types.ObjectId.isValid`: a 24-character hex string, or any
12-character string (interpreted as 12 raw bytes). -/
def isValidObjectId (s : String) : Bool :=
  (s.length == 24 && s.data.all isHexDigit) || s.length == 12

/-! ## Slug generation (modelSchema.pre('save'), lines 148-176) -/

/-- Characters kept by the slug regex character class `[a-z0-9]`. -/
def isSlugChar (c : Char) : Bool :=
  ('a' ≤ c && c ≤ 'z') || ('0' ≤ c && c ≤ '9')

/-- `replace(/[^a-z0-9]+/g, '-')`: each maximal run of characters outside
`[a-z0-9]` becomes a single `'-'`.  The `Bool` argument records whether the
previous character was part of such a run (so the run emits one hyphen). -/
def collapseRuns : Bool → List Char → List Char
  | _, [] => []
  | prevSep, c :: rest =>
    if isSlugChar c then c :: collapseRuns false rest
    else if prevSep then collapseRuns true rest
    else '-' :: collapseRuns true rest

/-- `replace(/^-+|-+$/g, '')`: strip leading and trailing hyphens. -/
def stripHyphens (l : List Char) : List Char :=
  ((l.dropWhile (· == '-')).reverse.dropWhile (· == '-')).reverse

/-- `this.name.toLowerCase().replace(/[^a-z0-9]+/g, '-').replace(/^-+|-+$/g, '')`. -/
def slugify (name : String) : String :=
  ⟨stripHyphens (collapseRuns false (jsToLower name).data)⟩

/-- The candidate sequence of the collision loop: the base slug itself, then
`` `${baseSlug}-${counter}` `` for `counter = 1, 2, ...`. -/
def candidateSlug (base : String) (k : Nat) : String :=
  if k = 0 then base else base ++ "-" ++ Nat.repr k

/-- The probe `findOne({ slug: slug, _id: { $ne: this._id } })`, as a
Boolean: is `s` held by a listing other than `selfId`? -/
def slugTaken (store : List Listing) (selfId : String) (s : String) : Bool :=
  store.any fun m => m.slug == s && m.id != selfId

/-- The `while (true)` probe loop, starting at candidate index `k`, with
explicit fuel (the loop in the source runs until a free candidate is found;
`none` models fuel exhaustion and never occurs on the concrete stores the
theorems are instantiated at). -/
def probeSlug (taken : String → Bool) (base : String) : Nat → Nat → Option String
  | 0, _ => none
  | fuel + 1, k =>
    if taken (candidateSlug base k) then probeSlug taken base fuel (k + 1)
    else some (candidateSlug base k)

/-- Slug generation for a listing with id `selfId` and display name `name`,
probing `store`. -/
def genSlug (store : List Listing) (selfId name : String) : Option String :=
  probeSlug (slugTaken store selfId) (slugify name) (store.length + 1) 0

/-- Replace the stored document with the saved one (mongoose persisting an
update of an existing document). -/
def replaceById (store : List Listing) (m : Listing) : List Listing :=
  store.map fun x => if x.id == m.id then m else x

/-- `await model.save()` on a document loaded as `orig` and mutated to `m`:
the pre-save hook regenerates the slug when `this.isModified('name')`
(the assigned name differs from the loaded one) or `!this.slug`. -/
def saveExisting (store : List Listing) (orig m : Listing) :
    Option (Listing × List Listing) :=
  if orig.name != m.name || m.slug == "" then
    match genSlug store m.id m.name with
    | none => none
    | some s =>
      let m' := { m with slug := s }
      some (m', replaceById store m')
  else
    some (m, replaceById store m)

/-! ## Payload validation (Joi `modelSchema`, lines 192-252)

Joi validates with its defaults: values are converted (strings trimmed,
defaults filled in), unknown keys are not part of the model, and
`abortEarly` reports the first failing rule only. -/

/-- A request body as received by the routes: each schema key either present
or absent. -/
structure RawPayload where
  name : Option String := none
  shortDescription : Option String := none
  longDescription : Option String := none
  category : Option String := none
  tags : Option (List String) := none
  provider : Option String := none
  pricing : Option String := none
  capabilities : Option (List String) := none
  isApiAvailable : Option Bool := none
  isOpenSource : Option Bool := none
  modelType : Option String := none
  externalUrl : Option String := none
  bestFor : Option (List String) := none
  features : Option (List String) := none
  examplePrompts : Option (List String) := none
deriving Repr, DecidableEq

/-- The Joi-validated value (`value` in the routes).  The three optional
keys with no default (`longDescription`, `modelType`, `externalUrl`) are
absent from `value` when absent from the input, so `Object.assign` leaves
the stored field alone; they stay `Option`s here. -/
structure Payload where
  name : String
  shortDescription : String
  longDescription : Option String
  category : String
  tags : List String
  provider : String
  pricing : String
  capabilities : List String
  isApiAvailable : Bool
  isOpenSource : Bool
  modelType : Option String
  externalUrl : Option String
  bestFor : List String
  features : List String
  examplePrompts : List String
deriving Repr, DecidableEq

def categoryValues : List String :=
  ["chatbots", "image", "code", "productivity", "voice",
   "writing", "research", "agents", "video", "audio",
   "data-analysis", "language", "design", "automation",
   "healthcare", "education", "marketing", "finance"]

def pricingValues : List String := ["free", "freemium", "paid"]

def capabilityValues : List String := ["text", "image", "audio", "video", "code", "agent"]

/-- `Joi.string().trim().max(maxLen).required()`. -/
def validRequiredString (o : Option String) (maxLen : Nat)
    (reqMsg emptyMsg maxMsg : String) : Except String String :=
  match o with
  | none => .error reqMsg
  | some s =>
    let t := jsTrim s
    if t == "" then .error emptyMsg
    else if maxLen < t.length then .error maxMsg
    else .ok t

/-- `Joi.string().trim().max(maxLen).allow('')`, key optional. -/
def validOptionalString (o : Option String) (maxLen : Nat) (maxMsg : String) :
    Except String (Option String) :=
  match o with
  | none => .ok none
  | some s =>
    let t := jsTrim s
    if maxLen < t.length then .error maxMsg
    else .ok (some t)

/-- `Joi.array().items(Joi.string().trim().max(maxLen)).default([])`. -/
def validStringArray (o : Option (List String)) (maxLen : Nat)
    (emptyMsg maxMsg : String) : Except String (List String) :=
  match o with
  | none => .ok []
  | some l =>
    l.mapM fun s =>
      let t := jsTrim s
      if t == "" then .error emptyMsg
      else if maxLen < t.length then .error maxMsg
      else .ok t

/-- `Joi.array().items(Joi.string().valid(...enum)).default([])`. -/
def validEnumArray (o : Option (List String)) (allowed : List String)
    (msg : String) : Except String (List String) :=
  match o with
  | none => .ok []
  | some l => l.mapM fun s => if allowed.contains s then .ok s else .error msg

/-- A simplified RFC 3986 check standing in for `Joi.string().uri()`:
`scheme ':' rest` with an alphabetic scheme head.  (No claim depends on the
exact uri grammar.) -/
def schemeTailColon : List Char → Bool
  | [] => false
  | c :: t =>
    if c == ':' then true
    else (('a' ≤ c && c ≤ 'z') || ('A' ≤ c && c ≤ 'Z') ||
          ('0' ≤ c && c ≤ '9') || c == '+' || c == '-' || c == '.')
      && schemeTailColon t

def isUri (s : String) : Bool :=
  match s.data with
  | c :: cs => (('a' ≤ c && c ≤ 'z') || ('A' ≤ c && c ≤ 'Z')) && schemeTailColon cs
  | [] => false

/-- `modelSchema.validate(req.body)` (Joi, abortEarly): the validated
`value`, or the first error message. -/
def validatePayload (p : RawPayload) : Except String Payload := do
  let name ← validRequiredString p.name 100 "Model name is required"
    "Model name is required" "Model name cannot be more than 100 characters"
  let shortDescription ← validRequiredString p.shortDescription 200
    "Short description is required" "Short description is required"
    "Short description cannot be more than 200 characters"
  let longDescription ← validOptionalString p.longDescription 2000
    "Long description cannot be more than 2000 characters"
  let category ←
    match p.category with
    | none => .error "Category is required"
    | some c =>
      if categoryValues.contains c then pure c
      else .error "Please select a valid category"
  let tags ← validStringArray p.tags 30 "Tag is not allowed to be empty"
    "Each tag cannot be more than 30 characters"
  let provider ← validRequiredString p.provider 50 "Provider is required"
    "Provider is required" "Provider name cannot be more than 50 characters"
  let pricing ←
    match p.pricing with
    | none => pure "freemium"
    | some s => if pricingValues.contains s then pure s
                else .error "Pricing must be one of free, freemium, paid"
  let capabilities ← validEnumArray p.capabilities capabilityValues
    "Capability must be one of the allowed values"
  let isApiAvailable := p.isApiAvailable.getD false
  let isOpenSource := p.isOpenSource.getD false
  let modelType ← validOptionalString p.modelType 50
    "Model type cannot be more than 50 characters"
  let externalUrl ←
    match p.externalUrl with
    | none => .ok none
    | some s => if s == "" || isUri s then .ok (some s)
                else .error "Please enter a valid URL"
  let bestFor ← validStringArray p.bestFor 50
    "Best for item is not allowed to be empty"
    "Each \"best for\" item cannot be more than 50 characters"
  let features ← validStringArray p.features 100
    "Feature is not allowed to be empty"
    "Each feature cannot be more than 100 characters"
  let examplePrompts ← validStringArray p.examplePrompts 200
    "Example prompt is not allowed to be empty"
    "Each example prompt cannot be more than 200 characters"
  return { name, shortDescription, longDescription, category, tags, provider,
           pricing, capabilities, isApiAvailable, isOpenSource, modelType,
           externalUrl, bestFor, features, examplePrompts }

/-- `Object.assign(model, value)` (line 481): every key present in the
validated `value` overwrites the document field; the three no-default
optional keys are only present when supplied. -/
def applyPayload (m : Listing) (v : Payload) : Listing :=
  { m with
    name := v.name
    shortDescription := v.shortDescription
    longDescription := match v.longDescription with
      | some t => some t
      | none => m.longDescription
    category := v.category
    tags := v.tags
    provider := v.provider
    pricing := v.pricing
    capabilities := v.capabilities
    isApiAvailable := v.isApiAvailable
    isOpenSource := v.isOpenSource
    modelType := match v.modelType with
      | some t => some t
      | none => m.modelType
    externalUrl := match v.externalUrl with
      | some t => some t
      | none => m.externalUrl
    bestFor := v.bestFor
    features := v.features
    examplePrompts := v.examplePrompts }

/-! ## Storage lookups used by the routes -/

/-- The ownership lookup `{ _id: id, uploadedBy: uid }` once the id cast
succeeded. -/
def findOwned (store : List Listing) (idStr uid : String) : Option Listing :=
  store.find? fun m => m.id == idStr && m.uploadedBy == uid

def listingById (store : List Listing) (idStr : String) : Option Listing :=
  store.find? fun m => m.id == idStr

/-- `Model.findById(id)` / `Model.findOne({ _id: id, ... })` first casts the
raw id; a malformed id makes the query reject (`CastError`), modelled as
`.error ()`. -/
def findByIdCast (store : List Listing) (idStr : String) :
    Except Unit (Option Listing) :=
  if isValidObjectId idStr then .ok (listingById store idStr) else .error ()

/-- `Model.findOne({ _id: id, uploadedBy: uid })` with the same cast
behaviour. -/
def findOwnedCast (store : List Listing) (idStr uid : String) :
    Except Unit (Option Listing) :=
  if isValidObjectId idStr then .ok (findOwned store idStr uid) else .error ()

/-! ## POST /api/models (lines 255-319) -/

inductive CreateResult
  | validationError (msg : String)
  | duplicateName
  | ok (m : Listing)
  | internalError
deriving Repr, DecidableEq

/-- `new Model({ ...value, uploadedBy: req.user._id })`: schema defaults for
everything the payload does not carry; `slug` unset until the pre-save
hook runs. -/
def newListing (uid newId : String) (v : Payload) (now : Nat) : Listing :=
  { id := newId, name := v.name, slug := "",
    shortDescription := v.shortDescription,
    longDescription := v.longDescription, category := v.category,
    tags := v.tags, provider := v.provider, pricing := v.pricing,
    rating := 0, reviewsCount := 0, installsCount := 0,
    capabilities := v.capabilities, isApiAvailable := v.isApiAvailable,
    isOpenSource := v.isOpenSource, modelType := v.modelType,
    externalUrl := v.externalUrl, iconUrl := none, screenshots := [],
    featured := false, trendingScore := 0, bestFor := v.bestFor,
    features := v.features, examplePrompts := v.examplePrompts,
    uploadedBy := uid, status := "pending", rejectionReason := none,
    createdAt := now, updatedAt := now }

/-- `router.post('/')`: validate, reject a duplicate name for the same
owner, create and save (the pre-save hook generates the slug; the
`User.uploadedModels` back-reference push is not modelled — it is
informational only and no claim touches it). -/
def createListing (store : List Listing) (uid newId : String) (p : RawPayload)
    (now : Nat) : CreateResult × List Listing :=
  match validatePayload p with
  | .error msg => (.validationError msg, store)
  | .ok v =>
    if store.any (fun m => m.name == v.name && m.uploadedBy == uid) then
      (.duplicateName, store)
    else
      let m0 := newListing uid newId v now
      match genSlug store m0.id m0.name with
      | none => (.internalError, store)
      | some s =>
        let m' := { m0 with slug := s }
        (.ok m', store ++ [m'])

/-! ## PUT /api/models/:id (lines 447-503) -/

inductive UpdateResult
  | notFound
  | stateConflict
  | validationError (msg : String)
  | ok (m : Listing)
  | internalError
deriving Repr, DecidableEq

/-- `router.put('/:id')`: ownership lookup (404 on miss), then the
approved-state guard (400), then Joi validation, then `Object.assign`, the
rejected→pending reset, and `save()`.  A cast failure on the raw id falls
through to the catch-all 500 handler (`internalError`). -/
def updateListing (store : List Listing) (uid idStr : String) (p : RawPayload) :
    UpdateResult × List Listing :=
  match findOwnedCast store idStr uid with
  | .error _ => (.internalError, store)
  | .ok none => (.notFound, store)
  | .ok (some m) =>
    if m.status == "approved" then (.stateConflict, store)
    else
      match validatePayload p with
      | .error msg => (.validationError msg, store)
      | .ok v =>
        let m1 := applyPayload m v
        let m2 :=
          if m1.status == "rejected" then
            { m1 with status := "pending", rejectionReason := none }
          else m1
        match saveExisting store m m2 with
        | none => (.internalError, store)
        | some (m', store') => (.ok m', store')

/-! ## DELETE /api/models/:id (lines 506-541) -/

inductive DeleteResult
  | notFound
  | ok
  | internalError
deriving Repr, DecidableEq

/-- `router.delete('/:id')`: ownership lookup (404 on miss), then
`findByIdAndDelete` (the `User.uploadedModels` pull is not modelled). -/
def deleteListing (store : List Listing) (uid idStr : String) :
    DeleteResult × List Listing :=
  match findOwnedCast store idStr uid with
  | .error _ => (.internalError, store)
  | .ok none => (.notFound, store)
  | .ok (some _) => (.ok, store.filter fun m => m.id != idStr)

/-! ## GET /api/models/:id (lines 406-444) -/

inductive GetResult
  | invalidId
  | notFound
  | ok (m : Listing)
deriving Repr, DecidableEq

/-- `router.get('/:id')`: explicit `ObjectId.isValid` check (400 on a
malformed id, before any storage access), then
`findOne({ _id: id, status: 'approved' })`. -/
def getListing (store : List Listing) (idStr : String) : GetResult :=
  if !isValidObjectId idStr then .invalidId
  else
    match store.find? (fun m => m.id == idStr && m.status == "approved") with
    | none => .notFound
    | some m => .ok m

/-! ## PUT /api/models/admin/:id/status (lines 585-636) -/

inductive AdminResult
  | validationError (msg : String)
  | notFound
  | ok (m : Listing)
  | internalError
deriving Repr, DecidableEq

def statusRequiredMsg : String :=
  "Invalid status. Must be: pending, approved, or rejected"

def reasonRequiredMsg : String :=
  "Rejection reason is required when rejecting a model"

/-- `router.put('/admin/:id/status')`: validate the target status (an
absent `status` is not in the allowed list), require a truthy
`rejectionReason` when rejecting (an absent reason and `""` are both
falsy), then `findById`, mutate and save.  The schema's `trim: true` on
`rejectionReason` applies on assignment. -/
def adminSetStatus (store : List Listing) (idStr : String)
    (status rejectionReason : Option String) : AdminResult × List Listing :=
  let statusOk := match status with
    | some s => ["pending", "approved", "rejected"].contains s
    | none => false
  if !statusOk then (.validationError statusRequiredMsg, store)
  else if status == some "rejected" && rejectionReason.getD "" == "" then
    (.validationError reasonRequiredMsg, store)
  else
    match findByIdCast store idStr with
    | .error _ => (.internalError, store)
    | .ok none => (.notFound, store)
    | .ok (some m) =>
      let st := status.getD ""
      let m1 := { m with
        status := st
        rejectionReason :=
          if st == "rejected" then rejectionReason.map jsTrim else none }
      match saveExisting store m m1 with
      | none => (.internalError, store)
      | some (m', store') => (.ok m', store')

/-! ## Serialization and field projection -/

/-- A JSON-ish field value, to state which keys a response document
carries. -/
inductive FieldVal
  | str (s : String)
  | strList (l : List String)
  | num (n : Nat)
  | boolVal (b : Bool)
  | doc (fields : List (String × FieldVal))
  | null
deriving Repr

def optField (k : String) : Option String → List (String × FieldVal)
  | none => []
  | some s => [(k, .str s)]

/-- The schema fields every serialized listing starts from (optional
fields only when set, as mongoose omits unset paths). -/
def serializeCore (m : Listing) : List (String × FieldVal) :=
  [("_id", .str m.id), ("name", .str m.name), ("slug", .str m.slug),
   ("shortDescription", .str m.shortDescription)]
  ++ optField "longDescription" m.longDescription
  ++ [("category", .str m.category), ("tags", .strList m.tags),
      ("provider", .str m.provider), ("pricing", .str m.pricing),
      ("rating", .num m.rating), ("reviewsCount", .num m.reviewsCount),
      ("installsCount", .num m.installsCount),
      ("capabilities", .strList m.capabilities),
      ("isApiAvailable", .boolVal m.isApiAvailable),
      ("isOpenSource", .boolVal m.isOpenSource)]
  ++ optField "modelType" m.modelType
  ++ optField "externalUrl" m.externalUrl
  ++ optField "iconUrl" m.iconUrl
  ++ [("screenshots", .strList m.screenshots),
      ("featured", .boolVal m.featured),
      ("trendingScore", .num m.trendingScore),
      ("bestFor", .strList m.bestFor), ("features", .strList m.features),
      ("examplePrompts", .strList m.examplePrompts),
      ("status", .str m.status)]
  ++ [("createdAt", .num m.createdAt), ("updatedAt", .num m.updatedAt)]

/-- `select('-uploadedBy')` (my-models, line 326): everything except the
`uploadedBy` reference — `rejectionReason`, when set, is included. -/
def serializeMyModels (m : Listing) : List (String × FieldVal) :=
  serializeCore m ++ optField "rejectionReason" m.rejectionReason

/-- `populate('uploadedBy', 'firstName lastName')`: the reference resolved
to a sub-document carrying only `_id`, `firstName`, `lastName` (or `null`
when the referenced user no longer exists). -/
def populateOwnerPublic (users : List User) (ownerId : String) : FieldVal :=
  match users.find? (fun u => u.id == ownerId) with
  | none => .null
  | some u =>
    .doc [("_id", .str u.id), ("firstName", .str u.firstName),
          ("lastName", .str u.lastName)]

/-- Public collection item (lines 371-376): `select('-rejectionReason')`
plus the populated owner. -/
def serializePublic (users : List User) (m : Listing) :
    List (String × FieldVal) :=
  serializeCore m ++ [("uploadedBy", populateOwnerPublic users m.uploadedBy)]

/-! ## GET /api/models/my-models (lines 322-344) -/

/-- Sort comparator for `sort({ createdAt: -1 })`. -/
def byCreatedAtDesc (a b : Listing) : Bool := b.createdAt ≤ a.createdAt

def myModels (store : List Listing) (uid : String) :
    List (List (String × FieldVal)) :=
  ((sortBy byCreatedAtDesc (store.filter fun m => m.uploadedBy == uid)).map
    serializeMyModels)

/-! ## GET /api/models (lines 347-403) -/

structure PublicQuery where
  category : Option String := none
  pricing : Option String := none
  search : Option String := none
  page : Option Nat := none
  limit : Option Nat := none
deriving Repr, DecidableEq

/-- Case-insensitive substring test: the semantics of
`{ $regex: term, $options: 'i' }` for a literal term. -/
def containsSub (needle : List Char) : List Char → Bool
  | [] => needle == []
  | c :: t => needle.isPrefixOf (c :: t) || containsSub needle t

def ciContains (hay term : String) : Bool :=
  containsSub (jsToLower term).data (jsToLower hay).data

/-- `if (category && category !== 'all') filter.category = category` (and
the same for `pricing`): an exact-match predicate is added only when the
query value is truthy and not `'all'`. -/
def filterCond (o : Option String) (field : String) : Bool :=
  match o with
  | some c => if c != "" && c != "all" then field == c else true
  | none => true

/-- `if (search) filter.$or = [...]` (lines 363-369): when the term is
truthy, it must match `name` or `shortDescription` or some tag,
case-insensitively. -/
def searchCond (o : Option String) (m : Listing) : Bool :=
  match o with
  | some s =>
    if s != "" then
      ciContains m.name s || ciContains m.shortDescription s
        || m.tags.any (fun t => ciContains t s)
    else true
  | none => true

/-- The mongo filter built at lines 352-369, as a predicate on a stored
listing: always `status == 'approved'`, plus the optional predicates. -/
def publicMatches (q : PublicQuery) (m : Listing) : Bool :=
  m.status == "approved" && filterCond q.category m.category
    && filterCond q.pricing m.pricing && searchCond q.search m

/-- `sort({ featured: -1, trendingScore: -1, createdAt: -1 })` as a stable
merge-sort comparator. -/
def listingSortLE (a b : Listing) : Bool :=
  if a.featured != b.featured then a.featured && !b.featured
  else if a.trendingScore != b.trendingScore then b.trendingScore ≤ a.trendingScore
  else b.createdAt ≤ a.createdAt

structure PageInfo where
  currentPage : Nat
  totalPages : Nat
  totalModels : Nat
  hasNext : Bool
  hasPrev : Bool
deriving Repr, DecidableEq

/-- `Math.ceil(a / b)` for naturals (the code divides two non-negative
counts; `b > 0` in every reachable call). -/
def ceilDiv (a b : Nat) : Nat := (a + b - 1) / b

/-- `router.get('/')`: defaults `page = 1`, `limit = 20` (destructuring
defaults apply only when the query key is absent; there is no clamp),
`skip = (page - 1) * limit`, filter, sort, window, project, and the
pagination metadata of lines 385-391. -/
def listListings (store : List Listing) (users : List User) (q : PublicQuery) :
    List (List (String × FieldVal)) × PageInfo :=
  let page := q.page.getD 1
  let limit := q.limit.getD 20
  let skip := (page - 1) * limit
  let matched := store.filter (publicMatches q)
  let sorted := sortBy listingSortLE matched
  let items := ((sorted.drop skip).take limit).map (serializePublic users)
  let totalModels := matched.length
  let totalPages := ceilDiv totalModels limit
  (items,
   { currentPage := page, totalPages := totalPages, totalModels := totalModels,
     hasNext := decide (page < totalPages), hasPrev := decide (1 < page) })

/-! ## Claim-side (specification) formulations

These definitions restate parts of the spec in a form independent of the
code's character-by-character folds, to be proved equivalent to the
embedded code. -/

/-- Maximal runs of `[a-z0-9]` characters of a character list, in order
(the head of each chunk delivered by `dropWhile` fails the dropped
predicate, so it is a slug character). -/
def slugRuns (l : List Char) : List (List Char) :=
  match h : l.dropWhile (fun c => !isSlugChar c) with
  | [] => []
  | c :: t => (c :: t.takeWhile isSlugChar) :: slugRuns (t.dropWhile isSlugChar)
termination_by l.length
decreasing_by
  have h1 : (l.dropWhile (fun c => !isSlugChar c)).length ≤ l.length :=
    (List.dropWhile_sublist _).length_le
  rw [h] at h1
  have h2 : (t.dropWhile isSlugChar).length ≤ t.length :=
    (List.dropWhile_sublist _).length_le
  simp only [List.length_cons] at h1
  omega

/-- Join character runs with single hyphens. -/
def joinRuns : List (List Char) → List Char
  | [] => []
  | [r] => r
  | r :: rs => r ++ '-' :: joinRuns rs

/-- The spec's description of the base slug: the maximal `[a-z0-9]` runs of
the lower-cased name, joined by single hyphens (equivalently: replace each
maximal run of other characters by one hyphen and strip the ends). -/
def specBaseSlug (name : String) : String :=
  ⟨joinRuns (slugRuns (jsToLower name).data)⟩

mutual
/-- Recognizer for the spec's slug shape `^[a-z0-9]+(-[a-z0-9]+)*$`:
`patAux` expects at least one slug character. -/
def patAux : List Char → Bool
  | [] => false
  | c :: t => isSlugChar c && patRest t
/-- After at least one slug character: more slug characters, or a hyphen
that must again be followed by `patAux`. -/
def patRest : List Char → Bool
  | [] => true
  | c :: t => if c == '-' then patAux t else isSlugChar c && patRest t
end

def slugPattern (s : String) : Bool := patAux s.data

/-- Claim-side description of the collision loop's result: the base slug
when it is free, otherwise the first free candidate of the sequence
`base-1, base-2, ...`. -/
def slugChosen (taken : String → Bool) (base s : String) : Prop :=
  (taken base = false ∧ s = base) ∨
  (taken base = true ∧ ∃ k, 1 ≤ k ∧ s = base ++ "-" ++ Nat.repr k ∧
    taken s = false ∧
    ∀ j, 1 ≤ j → j < k → taken (base ++ "-" ++ Nat.repr j) = true)

/-- The claim's reading of "a category/pricing filter is given": the query
carries a value that actually filters — the empty string is falsy in JS and
`'all'` is the route's explicit "no filter" sentinel. -/
def givenFilter : Option String → Option String
  | some c => if c == "" || c == "all" then none else some c
  | none => none

/-- "a search term is given": present and truthy. -/
def givenSearch : Option String → Option String
  | some s => if s == "" then none else some s
  | none => none

/-! ## Concrete fixtures for witnesses and counterexamples -/

def sampleId : String := "aaaaaaaaaaaaaaaaaaaaaaaa"

def sampleId2 : String := "bbbbbbbbbbbbbbbbbbbbbbbb"

def sampleId3 : String := "cccccccccccccccccccccccc"

def samplePayload : RawPayload :=
  { name := some "GPT 4!", shortDescription := some "fast inference",
    category := some "chatbots", provider := some "OpenAI",
    tags := some ["reasoning"] }

def sampleBadNamePayload : RawPayload :=
  { samplePayload with name := some "!!!" }

def sampleListing : Listing :=
  { id := sampleId, name := "GPT 4", slug := "gpt-4",
    shortDescription := "fast inference", longDescription := none,
    category := "chatbots", tags := ["reasoning"], provider := "OpenAI",
    pricing := "freemium", rating := 0, reviewsCount := 0, installsCount := 0,
    capabilities := [], isApiAvailable := false, isOpenSource := false,
    modelType := none, externalUrl := none, iconUrl := none,
    screenshots := [], featured := false, trendingScore := 0, bestFor := [],
    features := [], examplePrompts := [], uploadedBy := "u",
    status := "pending", rejectionReason := none, createdAt := 0,
    updatedAt := 0 }

def sampleRejected : Listing :=
  { sampleListing with status := "rejected", rejectionReason := some "too niche" }

/-- A store already holding the slug `gpt-4` (owned by another user). -/
def storeColl : List Listing :=
  [{ sampleListing with id := sampleId2, uploadedBy := "v", status := "approved" }]

def mkApproved (i : Nat) : Listing :=
  { id := Nat.repr i, name := "m", slug := Nat.repr i,
    shortDescription := "d", longDescription := none, category := "chatbots",
    tags := [], provider := "p", pricing := "free", rating := 0,
    reviewsCount := 0, installsCount := 0, capabilities := [],
    isApiAvailable := false, isOpenSource := false, modelType := none,
    externalUrl := none, iconUrl := none, screenshots := [],
    featured := false, trendingScore := 0, bestFor := [], features := [],
    examplePrompts := [], uploadedBy := "u", status := "approved",
    rejectionReason := none, createdAt := 0, updatedAt := 0 }

def store95 : List Listing := (List.range 95).map mkApproved

def store101 : List Listing := (List.range 101).map mkApproved

/-! # Theorems -/

/-! ## Helper lemmas about the building blocks -/

theorem applyPayload_status (m : Listing) (v : Payload) :
    (applyPayload m v).status = m.status := rfl

theorem applyPayload_id (m : Listing) (v : Payload) :
    (applyPayload m v).id = m.id := rfl

theorem applyPayload_rejectionReason (m : Listing) (v : Payload) :
    (applyPayload m v).rejectionReason = m.rejectionReason := rfl

theorem applyPayload_name (m : Listing) (v : Payload) :
    (applyPayload m v).name = v.name := rfl

theorem saveExisting_spec {store : List Listing} {orig m m' : Listing}
    {store' : List Listing} (h : saveExisting store orig m = some (m', store')) :
    m'.status = m.status ∧ m'.rejectionReason = m.rejectionReason ∧
    m'.id = m.id ∧ m'.name = m.name ∧ store' = replaceById store m' := by
  unfold saveExisting at h
  split at h
  · split at h
    · exact absurd h (by simp)
    · injection h with h1
      injection h1 with h2 h3
      subst h2; subst h3
      exact ⟨rfl, rfl, rfl, rfl, rfl⟩
  · injection h with h1
    injection h1 with h2 h3
    subst h2; subst h3
    exact ⟨rfl, rfl, rfl, rfl, rfl⟩

theorem mem_replaceById {store : List Listing} {m m' : Listing}
    (hm : m ∈ store) (hid : m.id = m'.id) : m' ∈ replaceById store m' := by
  unfold replaceById
  rw [List.mem_map]
  exact ⟨m, hm, by simp [hid]⟩

/-! ## C1 -/

/-- **C1.** For an update request by the owner on an existing listing whose
status is `approved`, `PUT /:id` fails with the state-conflict error
(HTTP 400, line 463) and the store is unchanged, for *every* payload: the
state guard runs before the Joi validation of line 471, so a malformed
payload still gets the state-conflict answer, never a validation error. -/
theorem approved_listing_update_conflict (store : List Listing)
    (uid idStr : String) (m : Listing) (p : RawPayload)
    (hid : isValidObjectId idStr = true)
    (hfind : findOwned store idStr uid = some m)
    (happr : m.status = "approved") :
    updateListing store uid idStr p = (.stateConflict, store) := by
  simp [updateListing, findOwnedCast, hid, hfind, happr]

/-- Witness for C1, with the empty (hence malformed) payload. -/
theorem approved_listing_update_conflict_witness :
    updateListing [{ sampleListing with status := "approved" }] "u" sampleId {} =
      (.stateConflict, [{ sampleListing with status := "approved" }]) :=
  approved_listing_update_conflict _ "u" sampleId
    { sampleListing with status := "approved" } {} (by decide) (by decide) rfl

/-! ## C2 -/

/-- **C2.** A successful owner edit (`UpdateResult.ok`) of a listing whose
current status is `rejected` persists it with status reset to `pending` and
`rejectionReason` cleared (lines 482-485); an edit of a `pending` listing
leaves the status `pending` (and the reason untouched).  The saved document
is in the resulting store. -/
theorem rejected_edit_resets_status (store : List Listing) (uid idStr : String)
    (p : RawPayload) (m m' : Listing) (store' : List Listing)
    (hid : isValidObjectId idStr = true)
    (hfind : findOwned store idStr uid = some m)
    (hok : updateListing store uid idStr p = (.ok m', store')) :
    (m.status = "rejected" → m'.status = "pending" ∧ m'.rejectionReason = none)
    ∧ (m.status = "pending" →
        m'.status = "pending" ∧ m'.rejectionReason = m.rejectionReason)
    ∧ m' ∈ store' := by
  have hmem : m ∈ store := List.mem_of_find?_eq_some hfind
  unfold updateListing at hok
  rw [findOwnedCast, if_pos hid, hfind] at hok
  dsimp only at hok
  by_cases happ : m.status = "approved"
  · rw [if_pos (by simpa using happ)] at hok
    exact absurd hok (by simp)
  · rw [if_neg (by simpa using happ)] at hok
    cases hv : validatePayload p <;> rw [hv] at hok
    · exact absurd hok (by simp)
    · rename_i v
      dsimp only at hok
      by_cases hrej : m.status = "rejected"
      · rw [if_pos (by simpa [applyPayload_status] using hrej)] at hok
        split at hok
        · exact absurd hok (by simp)
        · rename_i a b hs
          injection hok with h1 h2
          injection h1 with h1
          subst h1; subst h2
          obtain ⟨hst, hrr, hid', _, hstore⟩ := saveExisting_spec hs
          refine ⟨fun _ => ⟨hst, hrr⟩, fun hp => absurd hp (by rw [hrej]; decide), ?_⟩
          rw [hstore]
          exact mem_replaceById hmem (by rw [hid']; rfl)
      · rw [if_neg (by simpa [applyPayload_status] using hrej)] at hok
        split at hok
        · exact absurd hok (by simp)
        · rename_i a b hs
          injection hok with h1 h2
          injection h1 with h1
          subst h1; subst h2
          obtain ⟨hst, hrr, hid', _, hstore⟩ := saveExisting_spec hs
          rw [applyPayload_status] at hst
          rw [applyPayload_rejectionReason] at hrr
          refine ⟨fun hr => absurd hr hrej, fun hp => ⟨hst.trans hp, hrr⟩, ?_⟩
          rw [hstore]
          exact mem_replaceById hmem (by rw [hid', applyPayload_id])

/-- Witness for C2: editing the rejected sample listing with a valid
payload yields a pending listing with no rejection reason. -/
theorem rejected_edit_resets_status_witness :
    updateListing [sampleRejected] "u" sampleId samplePayload =
        (.ok { sampleListing with name := "GPT 4!" },
         [{ sampleListing with name := "GPT 4!" }])
      ∧ ({ sampleListing with name := "GPT 4!" } : Listing).status = "pending"
      ∧ ({ sampleListing with name := "GPT 4!" } : Listing).rejectionReason = none := by
  have h := rejected_edit_resets_status [sampleRejected] "u" sampleId samplePayload
    sampleRejected { sampleListing with name := "GPT 4!" }
    [{ sampleListing with name := "GPT 4!" }] (by decide) (by decide) (by decide)
  exact ⟨by decide, (h.1 rfl).1, (h.1 rfl).2⟩

/-! ## C8 -/

/-- **C8.** `PUT /:id` and `DELETE /:id` look the listing up with
`findOne({ _id, uploadedBy })`, so for a caller who is not the owner of an
existing listing the lookup misses and both routes answer exactly as they
do for a listing that does not exist at all: `notFound` — never a
state-conflict or a distinct ownership error. -/
theorem nonowner_mutation_not_found (store : List Listing) (uid idStr : String)
    (m : Listing)
    (hid : isValidObjectId idStr = true)
    (hm : m ∈ store) (hmid : m.id = idStr) (howner : m.uploadedBy ≠ uid)
    (hids : (store.map Listing.id).Nodup) :
    (∀ p, updateListing store uid idStr p = (.notFound, store))
    ∧ deleteListing store uid idStr = (.notFound, store)
    ∧ ∀ idStr₂, isValidObjectId idStr₂ = true →
        (∀ x ∈ store, x.id ≠ idStr₂) →
        (∀ p, updateListing store uid idStr₂ p = (.notFound, store))
        ∧ deleteListing store uid idStr₂ = (.notFound, store) := by
  have hnone : findOwned store idStr uid = none := by
    rw [findOwned, List.find?_eq_none]
    intro x hx
    simp only [Bool.and_eq_true, beq_iff_eq, not_and]
    intro hxid
    have hxm : x = m :=
      List.inj_on_of_nodup_map hids hx hm (hxid.trans hmid.symm)
    subst hxm
    exact howner
  refine ⟨?_, ?_, ?_⟩
  · intro p
    simp [updateListing, findOwnedCast, hid, hnone]
  · simp [deleteListing, findOwnedCast, hid, hnone]
  · intro idStr₂ hid₂ hmiss
    have hnone₂ : findOwned store idStr₂ uid = none := by
      rw [findOwned, List.find?_eq_none]
      intro x hx
      simp only [Bool.and_eq_true, beq_iff_eq, not_and]
      intro hxid
      exact absurd hxid (hmiss x hx)
    constructor
    · intro p
      simp [updateListing, findOwnedCast, hid₂, hnone₂]
    · simp [deleteListing, findOwnedCast, hid₂, hnone₂]

/-- Witness for C8: the sample listing exists but belongs to `"u"`; caller
`"w"` gets `notFound` from both mutation routes, exactly as for the
unused id `sampleId3`. -/
theorem nonowner_mutation_not_found_witness :
    (updateListing [sampleListing] "w" sampleId samplePayload =
        (.notFound, [sampleListing])
      ∧ deleteListing [sampleListing] "w" sampleId = (.notFound, [sampleListing]))
    ∧ (updateListing [sampleListing] "w" sampleId3 samplePayload =
        (.notFound, [sampleListing])
      ∧ deleteListing [sampleListing] "w" sampleId3 = (.notFound, [sampleListing])) := by
  have h := nonowner_mutation_not_found [sampleListing] "w" sampleId sampleListing
    (by decide) (by decide) (by decide) (by decide) (by decide)
  exact ⟨⟨h.1 samplePayload, h.2.1⟩,
    ⟨(h.2.2 sampleId3 (by decide) (by decide)).1 samplePayload,
     (h.2.2 sampleId3 (by decide) (by decide)).2⟩⟩

/-! ## C10 -/

/-- **C10.** `GET /:id` checks `ObjectId.isValid` before touching storage
and answers a malformed id with the validation error (for every store);
`PUT /:id` and `DELETE /:id` pass the raw path id straight into
`findOne`, whose cast failure rejects the promise, so the catch-all
handler answers with the generic internal failure — not a validation
error and not a not-found. -/
theorem malformed_id_bypasses_validation (store : List Listing)
    (uid idStr : String) (p : RawPayload)
    (hbad : isValidObjectId idStr = false) :
    getListing store idStr = .invalidId
    ∧ updateListing store uid idStr p = (.internalError, store)
    ∧ deleteListing store uid idStr = (.internalError, store) := by
  refine ⟨?_, ?_, ?_⟩ <;>
    simp [getListing, updateListing, deleteListing, findOwnedCast, hbad]

/-- Witness for C10 at the malformed id `"xyz"`. -/
theorem malformed_id_bypasses_validation_witness :
    getListing [sampleListing] "xyz" = .invalidId
    ∧ updateListing [sampleListing] "u" "xyz" samplePayload =
        (.internalError, [sampleListing])
    ∧ deleteListing [sampleListing] "u" "xyz" = (.internalError, [sampleListing]) :=
  malformed_id_bypasses_validation [sampleListing] "u" "xyz" samplePayload (by decide)

/-! ## C3 -/

/-- **C3.** `PUT /admin/:id/status`: a target status outside
`{pending, approved, rejected}` (or a missing one) is a validation error;
target `rejected` with a missing or empty reason is a validation error;
with a valid request, a missing listing is `notFound`, and an existing
listing is saved with the target status, carrying the (trimmed) reason
exactly when the target is `rejected` and a cleared reason otherwise. -/
theorem adminSetStatus_contract (store : List Listing) (idStr : String)
    (st rr : Option String) (hid : isValidObjectId idStr = true) :
    ((∀ s, st = some s → s ∉ (["pending", "approved", "rejected"] : List String)) →
      adminSetStatus store idStr st rr = (.validationError statusRequiredMsg, store))
    ∧ (st = some "rejected" → (rr = none ∨ rr = some "") →
      adminSetStatus store idStr st rr = (.validationError reasonRequiredMsg, store))
    ∧ (∀ s, st = some s → s ∈ (["pending", "approved", "rejected"] : List String) →
      (s = "rejected" → ∃ r, rr = some r ∧ r ≠ "") →
      listingById store idStr = none →
      adminSetStatus store idStr st rr = (.notFound, store))
    ∧ (∀ s m, st = some s → s ∈ (["pending", "approved", "rejected"] : List String) →
      (s = "rejected" → ∃ r, rr = some r ∧ r ≠ "") →
      listingById store idStr = some m → m.slug ≠ "" →
      ∃ m', adminSetStatus store idStr st rr = (.ok m', replaceById store m')
        ∧ m'.status = s
        ∧ m'.rejectionReason = (if s = "rejected" then rr.map jsTrim else none)
        ∧ m'.name = m.name ∧ m'.id = m.id) := by
  refine ⟨?_, ?_, ?_, ?_⟩
  · intro hbadst
    cases hst : st with
    | none => simp [adminSetStatus]
    | some s =>
      have : s ∉ (["pending", "approved", "rejected"] : List String) := hbadst s hst
      simp [adminSetStatus, this]
  · rintro rfl hr
    rcases hr with rfl | rfl <;> simp [adminSetStatus]
  · rintro s rfl hmem hreason hnone
    unfold adminSetStatus
    rw [if_neg (by simp [hmem])]
    rw [if_neg ?hcond]
    case hcond =>
      simp only [Bool.and_eq_true, beq_iff_eq, not_and, Option.some.injEq]
      intro hs
      obtain ⟨r, hr, hrne⟩ := hreason hs
      subst hr
      simpa using hrne
    rw [findByIdCast, if_pos hid, hnone]
  · rintro s m rfl hmem hreason hsome hslug
    unfold adminSetStatus
    rw [if_neg (by simp [hmem])]
    rw [if_neg ?hcond2]
    case hcond2 =>
      simp only [Bool.and_eq_true, beq_iff_eq, not_and, Option.some.injEq]
      intro hs
      obtain ⟨r, hr, hrne⟩ := hreason hs
      subst hr
      simpa using hrne
    rw [findByIdCast, if_pos hid, hsome]
    dsimp only
    rw [saveExisting, if_neg (by simpa using hslug)]
    refine ⟨_, rfl, rfl, ?_, rfl, rfl⟩
    by_cases hs : s = "rejected" <;> simp [hs]

/-- Witness for C3: rejecting the sample listing with reason
`"too niche"`. -/
theorem adminSetStatus_contract_witness :
    ∃ m', adminSetStatus [sampleListing] sampleId (some "rejected")
        (some "too niche") = (.ok m', replaceById [sampleListing] m')
      ∧ m'.status = "rejected"
      ∧ m'.rejectionReason =
          (if "rejected" = "rejected" then (some "too niche").map jsTrim else none)
      ∧ m'.name = sampleListing.name ∧ m'.id = sampleListing.id :=
  (adminSetStatus_contract [sampleListing] sampleId (some "rejected")
      (some "too niche") (by decide)).2.2.2 "rejected" sampleListing rfl
    (by decide) (fun _ => ⟨"too niche", rfl, by decide⟩) (by decide) (by decide)

/-! ## C5 -/

theorem filterCond_iff (o : Option String) (field : String) :
    filterCond o field = true ↔ ∀ c, givenFilter o = some c → field = c := by
  cases o with
  | none => simp [filterCond, givenFilter]
  | some c =>
    by_cases h1 : c = ""
    · subst h1; simp [filterCond, givenFilter]
    · by_cases h2 : c = "all"
      · subst h2; simp [filterCond, givenFilter]
      · simp [filterCond, givenFilter, h1, h2]

theorem searchCond_iff (o : Option String) (m : Listing) :
    searchCond o m = true ↔ ∀ s, givenSearch o = some s →
      (ciContains m.name s = true ∨ ciContains m.shortDescription s = true
        ∨ ∃ t ∈ m.tags, ciContains t s = true) := by
  cases o with
  | none => simp [searchCond, givenSearch]
  | some s =>
    by_cases h1 : s = ""
    · subst h1; simp [searchCond, givenSearch]
    · simp [searchCond, givenSearch, h1, List.any_eq_true, Bool.or_eq_true, or_assoc]

/-- **C5.** A listing is in the public collection's result set exactly when
its status is `approved`, it matches the category filter when one is given,
it matches the pricing filter when one is given, and, when a search term is
given, the term occurs case-insensitively in the name or in the short
description or in some tag.  ("Given" is formalised by `givenFilter` /
`givenSearch`: the route treats an absent value, the empty string and the
explicit sentinel `'all'` as "no filter".  The search term is modelled as
literal text, the semantics of `new RegExp(term, 'i')` for
metacharacter-free terms.) -/
theorem public_filter_characterization (q : PublicQuery) (store : List Listing)
    (m : Listing) :
    m ∈ store.filter (publicMatches q) ↔
      m ∈ store ∧ m.status = "approved"
      ∧ (∀ c, givenFilter q.category = some c → m.category = c)
      ∧ (∀ p, givenFilter q.pricing = some p → m.pricing = p)
      ∧ (∀ s, givenSearch q.search = some s →
          (ciContains m.name s = true ∨ ciContains m.shortDescription s = true
            ∨ ∃ t ∈ m.tags, ciContains t s = true)) := by
  rw [List.mem_filter]
  constructor
  · rintro ⟨hm, hmatch⟩
    unfold publicMatches at hmatch
    simp only [Bool.and_eq_true, beq_iff_eq] at hmatch
    obtain ⟨⟨⟨hs, hc⟩, hp⟩, hse⟩ := hmatch
    exact ⟨hm, hs, (filterCond_iff _ _).1 hc, (filterCond_iff _ _).1 hp,
      (searchCond_iff _ _).1 hse⟩
  · rintro ⟨hm, hs, hc, hp, hse⟩
    refine ⟨hm, ?_⟩
    unfold publicMatches
    simp only [Bool.and_eq_true, beq_iff_eq]
    exact ⟨⟨⟨hs, (filterCond_iff _ _).2 hc⟩, (filterCond_iff _ _).2 hp⟩,
      (searchCond_iff _ _).2 hse⟩

/-! ## C7 -/

theorem serializeCore_no_uploadedBy (m : Listing) :
    "uploadedBy" ∉ (serializeCore m).map Prod.fst := by
  obtain ⟨_, _, _, _, ld, _, _, _, _, _, _, _, _, _, _, mt, eu, ic,
    _, _, _, _, _, _, _, _, _, _, _⟩ := m
  cases ld <;> cases mt <;> cases eu <;> cases ic <;>
    simp [serializeCore, optField]

theorem serializeCore_no_rejectionReason (m : Listing) :
    "rejectionReason" ∉ (serializeCore m).map Prod.fst := by
  obtain ⟨_, _, _, _, ld, _, _, _, _, _, _, _, _, _, _, mt, eu, ic,
    _, _, _, _, _, _, _, _, _, _, _⟩ := m
  cases ld <;> cases mt <;> cases eu <;> cases ic <;>
    simp [serializeCore, optField]

theorem serializePublic_no_rejectionReason (users : List User) (m : Listing) :
    "rejectionReason" ∉ (serializePublic users m).map Prod.fst := by
  unfold serializePublic
  rw [List.map_append]
  intro hmem
  rcases List.mem_append.1 hmem with h | h
  · exact serializeCore_no_rejectionReason m h
  · simp at h

theorem serializePublic_uploadedBy_value (users : List User) (m : Listing)
    (fv : FieldVal) (h : ("uploadedBy", fv) ∈ serializePublic users m) :
    fv = populateOwnerPublic users m.uploadedBy := by
  unfold serializePublic at h
  rcases List.mem_append.1 h with h' | h'
  · exact absurd (List.mem_map_of_mem Prod.fst h') (serializeCore_no_uploadedBy m)
  · simp only [List.mem_singleton, Prod.mk.injEq] at h'
    exact h'.2

theorem serializeMyModels_no_uploadedBy (m : Listing) :
    "uploadedBy" ∉ (serializeMyModels m).map Prod.fst := by
  unfold serializeMyModels
  rw [List.map_append]
  intro hmem
  rcases List.mem_append.1 hmem with h | h
  · exact serializeCore_no_uploadedBy m h
  · cases hr : m.rejectionReason <;> rw [hr] at h <;> simp [optField] at h

/-- Counterexample to **C7** as stated: the my-models response includes the
`rejectionReason` field — the route's projection is `select('-uploadedBy')`
(line 326), which removes `uploadedBy`, not `rejectionReason`.  The
rejected sample listing's my-models item carries the key. -/
theorem my_models_contains_rejection_reason :
    ∃ keys ∈ (myModels [sampleRejected] "u").map (List.map Prod.fst),
      "rejectionReason" ∈ keys := by decide

/-- **C7 (amended).** Public collection items omit `rejectionReason` and
resolve `uploadedBy` to a sub-document of only `_id`/`firstName`/`lastName`
(or `null` for a dangling reference) — never email or credential fields;
my-models items omit the `uploadedBy` field (but, contrary to the claim,
they do include `rejectionReason` when it is set, as the counterexample
shows). -/
theorem projection_contract (store : List Listing) (users : List User)
    (q : PublicQuery) (uid : String) :
    (∀ item ∈ (listListings store users q).1,
        "rejectionReason" ∉ item.map Prod.fst
        ∧ ∀ fv, ("uploadedBy", fv) ∈ item →
            fv = FieldVal.null ∨ ∃ u : User,
              fv = .doc [("_id", .str u.id), ("firstName", .str u.firstName),
                         ("lastName", .str u.lastName)])
    ∧ ∀ item ∈ myModels store uid, "uploadedBy" ∉ item.map Prod.fst := by
  constructor
  · intro item hitem
    have : ∃ m, item = serializePublic users m := by
      obtain ⟨m, _, hm⟩ := List.mem_map.1 hitem
      exact ⟨m, hm.symm⟩
    obtain ⟨m, rfl⟩ := this
    refine ⟨serializePublic_no_rejectionReason users m, ?_⟩
    intro fv hfv
    rw [serializePublic_uploadedBy_value users m fv hfv]
    unfold populateOwnerPublic
    cases users.find? (fun u => u.id == m.uploadedBy) with
    | none => exact Or.inl rfl
    | some u => exact Or.inr ⟨u, rfl⟩
  · intro item hitem
    obtain ⟨m, _, hm⟩ := List.mem_map.1 hitem
    rw [← hm]
    exact serializeMyModels_no_uploadedBy m

/-! ## C6 -/

/-- `Math.ceil(a/b) * b` covers `a` (for a positive divisor). -/
theorem le_ceilDiv_mul (a b : Nat) (hb : 0 < b) : a ≤ ceilDiv a b * b := by
  unfold ceilDiv
  rw [Nat.mul_comm]
  have hd := Nat.div_add_mod (a + b - 1) b
  have hm : (a + b - 1) % b < b := Nat.mod_lt _ hb
  generalize hq : (a + b - 1) / b = q at hd ⊢
  generalize hX : b * q = X at hd ⊢
  generalize hr : (a + b - 1) % b = r at hd hm
  omega

/-- `Math.ceil(a/b)` is the least page count covering `a`. -/
theorem ceilDiv_le (a b n : Nat) (hb : 0 < b) (h : a ≤ n * b) :
    ceilDiv a b ≤ n := by
  unfold ceilDiv
  rw [Nat.div_le_iff_le_mul_add_pred hb]
  rw [Nat.mul_comm] at h
  generalize b * n = X at h ⊢
  omega

theorem insertBy_length (le : Listing → Listing → Bool) (a : Listing) :
    ∀ l, (insertBy le a l).length = l.length + 1 := by
  intro l
  induction l with
  | nil => rfl
  | cons b t ih =>
    unfold insertBy
    split
    · simp
    · simp [ih]

theorem sortBy_length (le : Listing → Listing → Bool) :
    ∀ l, (sortBy le l).length = l.length := by
  intro l
  induction l with
  | nil => rfl
  | cons a t ih =>
    unfold sortBy
    rw [insertBy_length, ih, List.length_cons]

theorem listListings_items (store : List Listing) (users : List User)
    (q : PublicQuery) :
    (listListings store users q).1 =
      (((sortBy listingSortLE (store.filter (publicMatches q))).drop
          ((q.page.getD 1 - 1) * q.limit.getD 20)).take (q.limit.getD 20)).map
        (serializePublic users) := rfl

theorem listListings_meta (store : List Listing) (users : List User)
    (q : PublicQuery) :
    (listListings store users q).2 =
      { currentPage := q.page.getD 1,
        totalPages := ceilDiv (store.filter (publicMatches q)).length
          (q.limit.getD 20),
        totalModels := (store.filter (publicMatches q)).length,
        hasNext := decide (q.page.getD 1 <
          ceilDiv (store.filter (publicMatches q)).length (q.limit.getD 20)),
        hasPrev := decide (1 < q.page.getD 1) } := rfl

theorem listListings_window_length (store : List Listing) (users : List User)
    (q : PublicQuery) :
    (listListings store users q).1.length =
      min (q.limit.getD 20)
        ((store.filter (publicMatches q)).length -
          (q.page.getD 1 - 1) * q.limit.getD 20) := by
  rw [listListings_items, List.length_map, List.length_take, List.length_drop,
    sortBy_length]

/-- Counterexample to **C6** as stated: the route has no clamp.  With
`limit=500` and 101 matching listings the route reports a single page
(`Math.ceil(101/500) = 1`) and returns all 101 items; a limit clamped to
100 would report `ceil(101/100) = 2` pages and return at most 100 items. -/
theorem pagination_clamp_counterexample :
    (listListings store101 [] { limit := some 500 }).2.totalPages = 1
    ∧ (listListings store101 [] { limit := some 500 }).1.length = 101
    ∧ ceilDiv 101 100 = 2 ∧ ¬(101 ≤ 100) := by
  refine ⟨by decide, ?_, by decide, by decide⟩
  rw [listListings_window_length]
  decide

/-- **C6 (amended).** The public collection query defaults `page` to 1 and
`limit` to 20 and applies **no** clamp (the claimed maximum of 100 does not
exist in the code, as the counterexample shows); `skip = (page-1)*limit`;
the returned window has `min limit (total - skip)` items; `totalPages` is
the least number of `limit`-sized pages covering all matches
(`Math.ceil(total/limit)`); `hasNext = page < totalPages`;
`hasPrev = page > 1`; e.g. 95 matches with `limit=20` give
`totalPages = 5`, and page 5 has `hasNext = false`, `hasPrev = true`. -/
theorem pagination_contract (store : List Listing) (users : List User)
    (q : PublicQuery) (hl : 0 < q.limit.getD 20) :
    (listListings store users q).2.currentPage = q.page.getD 1
    ∧ (listListings store users q).2.totalModels =
        (store.filter (publicMatches q)).length
    ∧ (store.filter (publicMatches q)).length ≤
        (listListings store users q).2.totalPages * q.limit.getD 20
    ∧ (∀ n, (store.filter (publicMatches q)).length ≤ n * q.limit.getD 20 →
        (listListings store users q).2.totalPages ≤ n)
    ∧ ((listListings store users q).2.hasNext = true ↔
        q.page.getD 1 < (listListings store users q).2.totalPages)
    ∧ ((listListings store users q).2.hasPrev = true ↔ 1 < q.page.getD 1)
    ∧ (listListings store users q).1.length =
        min (q.limit.getD 20)
          ((store.filter (publicMatches q)).length -
            (q.page.getD 1 - 1) * q.limit.getD 20) := by
  rw [listListings_meta]
  refine ⟨rfl, rfl, ?_, ?_, ?_, ?_, ?_⟩
  · exact le_ceilDiv_mul _ _ hl
  · exact fun n hn => ceilDiv_le _ _ n hl hn
  · simp
  · simp
  · exact listListings_window_length store users q

/-- Witness for C6's amended contract at the spec's example query
(the 95-listing store, default limit, page 5). -/
theorem pagination_contract_witness :
    ((listListings store95 [] { page := some 5 }).2.hasNext = true ↔
      ({ page := some 5 } : PublicQuery).page.getD 1 <
        (listListings store95 [] { page := some 5 }).2.totalPages)
    ∧ ((listListings store95 [] { page := some 5 }).2.hasPrev = true ↔
      1 < ({ page := some 5 } : PublicQuery).page.getD 1) := by
  have h := pagination_contract store95 [] { page := some 5 } (by decide)
  exact ⟨h.2.2.2.2.1, h.2.2.2.2.2.1⟩

/-- The spec's pagination example, computed end to end: 95 matches with the
default limit 20 give 5 pages; page 5 has no next page but a previous
one. -/
theorem pagination_example_95_20 :
    (listListings store95 [] { page := some 5 }).2 =
      { currentPage := 5, totalPages := 5, totalModels := 95,
        hasNext := false, hasPrev := true } := by decide

/-! ## Slug lemmas: the code's collapse-and-strip fold equals the spec's
joined maximal runs -/

theorem not_hyphen_of_slug {c : Char} (h : isSlugChar c = true) :
    (c == '-') = false := by
  cases hcc : (c == '-') with
  | false => rfl
  | true =>
    have : c = '-' := by simpa using hcc
    subst this
    exact absurd h (by decide)

theorem dropWhile_head_false {α : Type} {p : α → Bool} :
    ∀ {l : List α} {c : α} {t : List α}, List.dropWhile p l = c :: t →
      p c = false := by
  intro l
  induction l with
  | nil => intro c t h; simp [List.dropWhile] at h
  | cons x xs ih =>
    intro c t h
    rw [List.dropWhile_cons] at h
    by_cases hx : p x = true
    · rw [if_pos hx] at h; exact ih h
    · rw [if_neg hx] at h
      injection h with h1 _
      subst h1
      cases hpx : p x with
      | false => rfl
      | true => exact absurd hpx hx

theorem slugRuns_nil : slugRuns [] = [] := by
  rw [slugRuns]; rfl

theorem slugRuns_sep_cons (c : Char) (t : List Char)
    (hc : isSlugChar c = false) : slugRuns (c :: t) = slugRuns t := by
  rw [slugRuns]
  conv_rhs => rw [slugRuns]
  rw [List.dropWhile_cons, if_pos (by simp [hc])]

theorem slugRuns_slug_cons (c : Char) (t : List Char)
    (hc : isSlugChar c = true) :
    slugRuns (c :: t) =
      (c :: t.takeWhile isSlugChar) :: slugRuns (t.dropWhile isSlugChar) := by
  rw [slugRuns]
  rw [List.dropWhile_cons, if_neg (by simp [hc])]

theorem slugRuns_dropWhile : ∀ t : List Char,
    slugRuns (t.dropWhile (fun c => !isSlugChar c)) = slugRuns t := by
  intro t
  induction t with
  | nil => rfl
  | cons c rest ih =>
    by_cases hc : isSlugChar c = true
    · rw [List.dropWhile_cons, if_neg (by simp [hc])]
    · have hc' : isSlugChar c = false := by
        cases h : isSlugChar c with
        | false => rfl
        | true => exact absurd h hc
      rw [List.dropWhile_cons, if_pos (by simp [hc']), ih,
        slugRuns_sep_cons c rest hc']

theorem collapse_true_eq : ∀ t : List Char,
    collapseRuns true t =
      collapseRuns false (t.dropWhile (fun c => !isSlugChar c)) := by
  intro t
  induction t with
  | nil => rfl
  | cons c rest ih =>
    by_cases hc : isSlugChar c = true
    · rw [List.dropWhile_cons, if_neg (by simp [hc])]
      simp [collapseRuns, hc]
    · have hc' : isSlugChar c = false := by
        cases h : isSlugChar c with
        | false => rfl
        | true => exact absurd h hc
      rw [List.dropWhile_cons, if_pos (by simp [hc']), ← ih]
      simp [collapseRuns, hc']

theorem collapse_run : ∀ (run rest : List Char),
    (∀ x ∈ run, isSlugChar x = true) →
    collapseRuns false (run ++ rest) = run ++ collapseRuns false rest := by
  intro run
  induction run with
  | nil => intro rest _; rfl
  | cons c rs ih =>
    intro rest hall
    have hc : isSlugChar c = true := hall c (List.mem_cons_self _ _)
    simp only [List.cons_append]
    rw [show collapseRuns false (c :: (rs ++ rest)) =
        c :: collapseRuns false (rs ++ rest) by simp [collapseRuns, hc]]
    rw [ih rest fun x hx => hall x (List.mem_cons_of_mem _ hx)]

theorem stripHyphens_all_slug (ll : List Char)
    (hall : ∀ x ∈ ll, isSlugChar x = true) : stripHyphens ll = ll := by
  unfold stripHyphens
  have h1 : ll.dropWhile (· == '-') = ll := by
    cases ll with
    | nil => rfl
    | cons c t =>
      rw [List.dropWhile_cons,
        if_neg (by simp [not_hyphen_of_slug (hall c (List.mem_cons_self c t))])]
  rw [h1]
  have h2 : ll.reverse.dropWhile (· == '-') = ll.reverse := by
    cases hrev : ll.reverse with
    | nil => rfl
    | cons c t =>
      have hc : c ∈ ll := by
        have : c ∈ ll.reverse := by rw [hrev]; exact List.mem_cons_self c t
        simpa using this
      rw [List.dropWhile_cons,
        if_neg (by simp [not_hyphen_of_slug (hall c hc)])]
  rw [h2, List.reverse_reverse]

theorem stripHyphens_glue (run Z : List Char)
    (hrun : ∀ x ∈ run, isSlugChar x = true) (hrne : run ≠ [])
    (hZ : ∃ e Z', Z = e :: Z' ∧ isSlugChar e = true) :
    stripHyphens (run ++ '-' :: Z) = run ++ '-' :: stripHyphens Z := by
  obtain ⟨e, Z', rfl, he⟩ := hZ
  unfold stripHyphens
  obtain ⟨r0, run', rfl⟩ : ∃ r0 run', run = r0 :: run' := by
    cases run with
    | nil => exact absurd rfl hrne
    | cons a b => exact ⟨a, b, rfl⟩
  have hr0 : isSlugChar r0 = true := hrun r0 (List.mem_cons_self _ _)
  -- leading strip keeps everything: the head is a slug character
  rw [show ((r0 :: run') ++ '-' :: e :: Z').dropWhile (· == '-') =
      (r0 :: run') ++ '-' :: e :: Z' by
    rw [List.cons_append, List.dropWhile_cons,
      if_neg (by simp [not_hyphen_of_slug hr0])]]
  -- leading strip of Z keeps everything as well
  rw [show (e :: Z').dropWhile (· == '-') = e :: Z' by
    rw [List.dropWhile_cons, if_neg (by simp [not_hyphen_of_slug he])]]
  -- move to the reversed side
  rw [show ((r0 :: run') ++ '-' :: e :: Z').reverse =
      (e :: Z').reverse ++ '-' :: (r0 :: run').reverse by
    rw [List.reverse_append]; simp]
  have hnonempty : ¬((e :: Z').reverse.dropWhile (· == '-')).isEmpty = true := by
    intro hempty
    have hnil : (e :: Z').reverse.dropWhile (· == '-') = [] := by
      simpa [List.isEmpty_iff] using hempty
    have := List.dropWhile_eq_nil_iff.mp hnil e (by simp)
    exact absurd this (by simp [not_hyphen_of_slug he])
  rw [List.dropWhile_append, if_neg hnonempty]
  rw [List.reverse_append]
  simp

theorem stripHyphens_run_hyphen (run : List Char)
    (hrun : ∀ x ∈ run, isSlugChar x = true) (hrne : run ≠ []) :
    stripHyphens (run ++ ['-']) = run := by
  obtain ⟨r0, run', rfl⟩ : ∃ r0 run', run = r0 :: run' := by
    cases run with
    | nil => exact absurd rfl hrne
    | cons a b => exact ⟨a, b, rfl⟩
  have hr0 : isSlugChar r0 = true := hrun r0 (List.mem_cons_self _ _)
  unfold stripHyphens
  rw [show ((r0 :: run') ++ ['-']).dropWhile (· == '-') =
      (r0 :: run') ++ ['-'] by
    rw [List.cons_append, List.dropWhile_cons,
      if_neg (by simp [not_hyphen_of_slug hr0])]]
  rw [List.reverse_append]
  rw [show ((['-'] : List Char).reverse ++ (r0 :: run').reverse).dropWhile (· == '-') =
      (r0 :: run').reverse.dropWhile (· == '-') by
    simp [List.dropWhile_cons]]
  have hrev : (r0 :: run').reverse.dropWhile (· == '-') = (r0 :: run').reverse := by
    cases hr : (r0 :: run').reverse with
    | nil => rfl
    | cons a b =>
      have ha : a ∈ (r0 :: run') := by
        have h7 : a ∈ (r0 :: run').reverse := by
          rw [hr]; exact List.mem_cons_self _ _
        exact List.mem_reverse.mp h7
      rw [List.dropWhile_cons,
        if_neg (by simp [not_hyphen_of_slug (hrun a ha)])]
  rw [hrev, List.reverse_reverse]

theorem collapse_strip_eq_joinRuns : ∀ (n : Nat) (l : List Char),
    l.length ≤ n →
    stripHyphens (collapseRuns false l) = joinRuns (slugRuns l) := by
  intro n
  induction n with
  | zero =>
    intro l hl
    have : l = [] := List.length_eq_zero.mp (Nat.le_zero.mp hl)
    subst this
    rw [slugRuns_nil]; rfl
  | succ n ih =>
    intro l hl
    cases l with
    | nil => rw [slugRuns_nil]; rfl
    | cons c t =>
      by_cases hc : isSlugChar c = true
      · -- l starts with a maximal slug-character run
        have hallrun : ∀ x ∈ c :: t.takeWhile isSlugChar, isSlugChar x = true := by
          intro x hx
          rcases List.mem_cons.1 hx with rfl | hx'
          · exact hc
          · exact List.mem_takeWhile_imp hx'
        have hcoll : collapseRuns false (c :: t) =
            (c :: t.takeWhile isSlugChar) ++
              collapseRuns false (t.dropWhile isSlugChar) := by
          conv_lhs =>
            rw [show c :: t =
              (c :: t.takeWhile isSlugChar) ++ t.dropWhile isSlugChar by
                simp [List.takeWhile_append_dropWhile]]
          exact collapse_run _ _ hallrun
        rw [hcoll, slugRuns_slug_cons c t hc]
        cases hrest : t.dropWhile isSlugChar with
        | nil =>
          rw [slugRuns_nil, show collapseRuns false [] = ([] : List Char) from rfl,
            List.append_nil]
          exact stripHyphens_all_slug _ hallrun
        | cons d rest₂ =>
          have hd : isSlugChar d = false := dropWhile_head_false hrest
          have hlen₂ : rest₂.length + 1 ≤ t.length := by
            have hs := (List.dropWhile_sublist (l := t) isSlugChar).length_le
            rw [hrest] at hs
            simpa using hs
          have htn : t.length ≤ n := by simpa using hl
          have hcoll2 : collapseRuns false (d :: rest₂) =
              '-' :: collapseRuns false
                (rest₂.dropWhile (fun x => !isSlugChar x)) := by
            rw [show collapseRuns false (d :: rest₂) =
              '-' :: collapseRuns true rest₂ by simp [collapseRuns, hd]]
            rw [collapse_true_eq]
          have hruns2 : slugRuns (d :: rest₂) =
              slugRuns (rest₂.dropWhile (fun x => !isSlugChar x)) := by
            rw [slugRuns_sep_cons d rest₂ hd, slugRuns_dropWhile]
          rw [hcoll2, hruns2]
          have hlen₃ : (rest₂.dropWhile (fun x => !isSlugChar x)).length ≤ n := by
            have h3 : (rest₂.dropWhile (fun x => !isSlugChar x)).length ≤
                rest₂.length := (List.dropWhile_sublist _).length_le
            omega
          cases hrest₃ : rest₂.dropWhile (fun x => !isSlugChar x) with
          | nil =>
            rw [slugRuns_nil]
            exact stripHyphens_run_hyphen _ hallrun (by simp)
          | cons e rest₄ =>
            have he : isSlugChar e = true := by
              have hh := dropWhile_head_false hrest₃
              simpa using hh
            have hglue := stripHyphens_glue (c :: t.takeWhile isSlugChar)
              (collapseRuns false (e :: rest₄)) hallrun (by simp)
              ⟨e, collapseRuns false rest₄, by simp [collapseRuns, he], he⟩
            rw [hglue]
            have hlen₄ : (e :: rest₄).length ≤ n := by rw [← hrest₃]; exact hlen₃
            rw [ih (e :: rest₄) hlen₄]
            rw [slugRuns_slug_cons e rest₄ he]
            rfl
      · have hc' : isSlugChar c = false := by
          cases h : isSlugChar c with
          | false => rfl
          | true => exact absurd h hc
        have hcoll : collapseRuns false (c :: t) =
            '-' :: collapseRuns false (t.dropWhile (fun x => !isSlugChar x)) := by
          rw [show collapseRuns false (c :: t) = '-' :: collapseRuns true t by
            simp [collapseRuns, hc']]
          rw [collapse_true_eq]
        rw [hcoll]
        rw [show stripHyphens ('-' :: collapseRuns false
              (t.dropWhile (fun x => !isSlugChar x))) =
            stripHyphens (collapseRuns false
              (t.dropWhile (fun x => !isSlugChar x))) from by
          unfold stripHyphens
          rw [List.dropWhile_cons, if_pos (by decide)]]
        rw [slugRuns_sep_cons c t hc', ← slugRuns_dropWhile t]
        refine ih _ ?_
        have h5 : (t.dropWhile (fun x => !isSlugChar x)).length ≤ t.length :=
          (List.dropWhile_sublist _).length_le
        have h6 : t.length ≤ n := by simpa using hl
        omega

theorem slugify_eq_specBaseSlug (name : String) :
    slugify name = specBaseSlug name := by
  unfold slugify specBaseSlug
  exact congrArg String.mk
    (collapse_strip_eq_joinRuns (jsToLower name).data.length _ le_rfl)

/-! ## The probe loop finds the first free candidate -/

theorem probeSlug_spec (taken : String → Bool) (base : String) :
    ∀ (fuel k : Nat) (s : String), probeSlug taken base fuel k = some s →
      ∃ j, k ≤ j ∧ s = candidateSlug base j ∧
        taken (candidateSlug base j) = false ∧
        ∀ i, k ≤ i → i < j → taken (candidateSlug base i) = true := by
  intro fuel
  induction fuel with
  | zero => intro k s h; simp [probeSlug] at h
  | succ n ihf =>
    intro k s h
    rw [probeSlug] at h
    by_cases ht : taken (candidateSlug base k) = true
    · rw [if_pos ht] at h
      obtain ⟨j, hkj, hs, hfree, hall⟩ := ihf (k + 1) s h
      refine ⟨j, by omega, hs, hfree, ?_⟩
      intro i hki hij
      by_cases hik : i = k
      · subst hik; exact ht
      · exact hall i (by omega) hij
    · rw [if_neg ht] at h
      injection h with h1
      subst h1
      refine ⟨k, le_rfl, rfl, ?_, ?_⟩
      · cases htk : taken (candidateSlug base k) with
        | false => rfl
        | true => exact absurd htk ht
      · intro i h1 h2; omega

theorem genSlug_chosen (store : List Listing) (selfId name s : String)
    (h : genSlug store selfId name = some s) :
    slugChosen (slugTaken store selfId) (slugify name) s := by
  obtain ⟨j, _, hs, hfree, hall⟩ := probeSlug_spec _ _ _ _ _ h
  cases j with
  | zero =>
    left
    refine ⟨?_, ?_⟩
    · simpa [candidateSlug] using hfree
    · simpa [candidateSlug] using hs
  | succ j' =>
    right
    constructor
    · have h0 := hall 0 (Nat.zero_le _) (Nat.succ_pos _)
      simpa [candidateSlug] using h0
    · refine ⟨j' + 1, by omega, ?_, ?_, ?_⟩
      · simpa [candidateSlug] using hs
      · rw [hs]; exact hfree
      · intro i h1 h2
        have hi := hall i (Nat.zero_le _) h2
        rwa [candidateSlug, if_neg (by omega)] at hi

/-! ## The generated slug fits `^[a-z0-9]+(-[a-z0-9]+)*$` -/

theorem patRest_all_slug : ∀ l : List Char,
    (∀ x ∈ l, isSlugChar x = true) → patRest l = true := by
  intro l
  induction l with
  | nil => intro _; rfl
  | cons c t ih =>
    intro hall
    have hc := hall c (List.mem_cons_self _ _)
    rw [patRest, if_neg (by simp [not_hyphen_of_slug hc])]
    simp [hc, ih fun x hx => hall x (List.mem_cons_of_mem _ hx)]

theorem patAux_all_slug (l : List Char) (hall : ∀ x ∈ l, isSlugChar x = true)
    (hne : l ≠ []) : patAux l = true := by
  cases l with
  | nil => exact absurd rfl hne
  | cons c t =>
    rw [patAux]
    simp [hall c (List.mem_cons_self _ _),
      patRest_all_slug t fun x hx => hall x (List.mem_cons_of_mem _ hx)]

theorem patRest_glue (run X : List Char)
    (hrun : ∀ x ∈ run, isSlugChar x = true) :
    patRest (run ++ '-' :: X) = patAux X := by
  induction run with
  | nil =>
    rw [List.nil_append, patRest, if_pos (by decide)]
  | cons c rs ih =>
    have hc := hrun c (List.mem_cons_self _ _)
    rw [List.cons_append, patRest, if_neg (by simp [not_hyphen_of_slug hc])]
    simp [hc, ih fun x hx => hrun x (List.mem_cons_of_mem _ hx)]

theorem patAux_glue (run X : List Char)
    (hrun : ∀ x ∈ run, isSlugChar x = true) (hne : run ≠ []) :
    patAux (run ++ '-' :: X) = patAux X := by
  cases run with
  | nil => exact absurd rfl hne
  | cons c rs =>
    have hc := hrun c (List.mem_cons_self _ _)
    rw [List.cons_append, patAux]
    simp [hc, patRest_glue rs X fun x hx => hrun x (List.mem_cons_of_mem _ hx)]

theorem patAux_joinRuns : ∀ runs : List (List Char), runs ≠ [] →
    (∀ r ∈ runs, r ≠ [] ∧ ∀ x ∈ r, isSlugChar x = true) →
    patAux (joinRuns runs) = true := by
  intro runs
  induction runs with
  | nil => intro h; exact absurd rfl h
  | cons r rs ih =>
    intro _ hall
    obtain ⟨hrne, hrslug⟩ := hall r (List.mem_cons_self _ _)
    cases rs with
    | nil => exact patAux_all_slug r hrslug hrne
    | cons r2 rs2 =>
      rw [show joinRuns (r :: r2 :: rs2) = r ++ '-' :: joinRuns (r2 :: rs2) from rfl]
      rw [patAux_glue r _ hrslug hrne]
      exact ih (by simp) fun x hx => hall x (List.mem_cons_of_mem _ hx)

theorem slugRuns_all_slug : ∀ (n : Nat) (l : List Char), l.length ≤ n →
    ∀ r ∈ slugRuns l, r ≠ [] ∧ ∀ x ∈ r, isSlugChar x = true := by
  intro n
  induction n with
  | zero =>
    intro l hl
    have : l = [] := List.length_eq_zero.mp (Nat.le_zero.mp hl)
    subst this
    rw [slugRuns_nil]
    simp
  | succ n ih =>
    intro l hl r hr
    cases hdrop : l.dropWhile (fun c => !isSlugChar c) with
    | nil =>
      rw [← slugRuns_dropWhile l, hdrop, slugRuns_nil] at hr
      simp at hr
    | cons c t₁ =>
      have hc : isSlugChar c = true := by
        have hh := dropWhile_head_false hdrop
        simpa using hh
      rw [← slugRuns_dropWhile l, hdrop, slugRuns_slug_cons c t₁ hc] at hr
      rcases List.mem_cons.1 hr with rfl | hr'
      · refine ⟨by simp, ?_⟩
        intro x hx
        rcases List.mem_cons.1 hx with rfl | hx'
        · exact hc
        · exact List.mem_takeWhile_imp hx'
      · refine ih (t₁.dropWhile isSlugChar) ?_ r hr'
        have h8 := (List.dropWhile_sublist (l := l) (fun c => !isSlugChar c)).length_le
        rw [hdrop] at h8
        have h9 := (List.dropWhile_sublist (l := t₁) isSlugChar).length_le
        simp only [List.length_cons] at h8
        omega

theorem slugRuns_ne_nil (l : List Char) (hany : l.any isSlugChar = true) :
    slugRuns l ≠ [] := by
  obtain ⟨x, hx, hslug⟩ := List.any_eq_true.mp hany
  cases hdrop : l.dropWhile (fun c => !isSlugChar c) with
  | nil =>
    exfalso
    have hall := List.dropWhile_eq_nil_iff.mp hdrop x hx
    simp [hslug] at hall
  | cons c t₁ =>
    have hc : isSlugChar c = true := by
      have hh := dropWhile_head_false hdrop
      simpa using hh
    rw [← slugRuns_dropWhile l, hdrop, slugRuns_slug_cons c t₁ hc]
    simp

theorem joinRuns_ne_nil (runs : List (List Char)) (hne : runs ≠ [])
    (hr : ∀ r ∈ runs, r ≠ []) : joinRuns runs ≠ [] := by
  cases runs with
  | nil => exact absurd rfl hne
  | cons r rs =>
    cases rs with
    | nil => simpa [joinRuns] using hr r (List.mem_cons_self _ _)
    | cons r2 rs2 =>
      rw [show joinRuns (r :: r2 :: rs2) = r ++ '-' :: joinRuns (r2 :: rs2) from rfl]
      simp

theorem slugify_shape (name : String)
    (hany : (jsToLower name).data.any isSlugChar = true) :
    slugify name ≠ "" ∧ slugPattern (slugify name) = true := by
  rw [slugify_eq_specBaseSlug]
  have hruns := slugRuns_all_slug (jsToLower name).data.length
    (jsToLower name).data le_rfl
  have hne := slugRuns_ne_nil _ hany
  constructor
  · intro hempty
    have hdata : joinRuns (slugRuns (jsToLower name).data) = [] :=
      congrArg String.data hempty
    exact joinRuns_ne_nil _ hne (fun r hr => (hruns r hr).1) hdata
  · exact patAux_joinRuns _ hne hruns

theorem saveExisting_name_changed {store : List Listing} {orig m m' : Listing}
    {store' : List Listing}
    (h : saveExisting store orig m = some (m', store'))
    (hname : m'.name ≠ orig.name) :
    genSlug store m.id m.name = some m'.slug := by
  unfold saveExisting at h
  split at h
  · split at h
    · exact absurd h (by simp)
    · rename_i s hg
      simp only [Option.some.injEq, Prod.mk.injEq] at h
      obtain ⟨ha, hb⟩ := h
      subst ha
      exact hg
  · rename_i hcond
    simp only [Option.some.injEq, Prod.mk.injEq] at h
    obtain ⟨ha, hb⟩ := h
    subst ha
    simp only [Bool.or_eq_true, bne_iff_ne, ne_eq, beq_iff_eq, not_or,
      not_not] at hcond
    exact absurd hcond.1.symm hname

/-! ## C4 -/

/-- **C4.** Slug computation (the pre-save hook, lines 148-176).  First, the
code's base slug (lower-case, collapse runs of non-`[a-z0-9]` characters to
single hyphens, strip end hyphens) equals the spec's formulation — the
maximal alphanumeric runs of the lower-cased name joined by single hyphens
(`specBaseSlug`).  Second, on every creation, and on every update whose
saved name differs from the stored one, the persisted slug is the base slug
when no *other* listing (self excluded) holds it, and otherwise the first
free candidate of the sequence `base-1, base-2, ...` (`slugChosen`). -/
theorem slug_generation_algorithm (store : List Listing) :
    (∀ name, slugify name = specBaseSlug name)
    ∧ (∀ uid newId p now m' store',
        createListing store uid newId p now = (.ok m', store') →
        slugChosen (slugTaken store newId) (specBaseSlug m'.name) m'.slug)
    ∧ (∀ uid idStr p m m' store',
        findOwned store idStr uid = some m →
        updateListing store uid idStr p = (.ok m', store') →
        m'.name ≠ m.name →
        slugChosen (slugTaken store m.id) (specBaseSlug m'.name) m'.slug) := by
  refine ⟨slugify_eq_specBaseSlug, ?_, ?_⟩
  · intro uid newId p now m' store' h
    unfold createListing at h
    cases hv : validatePayload p <;> rw [hv] at h
    · exact absurd h (by simp)
    · rename_i v
      dsimp only at h
      split at h
      · exact absurd h (by simp)
      · split at h
        · exact absurd h (by simp)
        · rename_i s hg
          injection h with h1 h2
          injection h1 with ha
          subst ha
          rw [← slugify_eq_specBaseSlug]
          exact genSlug_chosen store newId _ s hg
  · intro uid idStr p m m' store' hfind hok hname
    unfold updateListing at hok
    rw [findOwnedCast] at hok
    split at hok
    · exact absurd hok (by simp)
    · rename_i heq
      split at heq
      · injection heq with hnone
        rw [hfind] at hnone
        exact absurd hnone (by simp)
      · exact absurd heq (by simp)
    · rename_i mf heq
      split at heq
      case isFalse => exact absurd heq (by simp)
      case isTrue =>
        injection heq with hsome
        rw [hfind] at hsome
        injection hsome with hsome
        subst hsome
        dsimp only at hok
        split at hok
        · exact absurd hok (by simp)
        · split at hok
          · exact absurd hok (by simp)
          · rename_i v hv
            by_cases hrej : ((applyPayload m v).status == "rejected") = true
            · rw [if_pos hrej] at hok
              split at hok
              · exact absurd hok (by simp)
              · rename_i a b hs
                injection hok with h1 h2
                injection h1 with ha
                subst ha
                obtain ⟨_, _, _, hnameeq, _⟩ := saveExisting_spec hs
                have hgen := saveExisting_name_changed hs hname
                rw [← slugify_eq_specBaseSlug, hnameeq]
                exact genSlug_chosen store m.id _ _ hgen
            · rw [if_neg hrej] at hok
              split at hok
              · exact absurd hok (by simp)
              · rename_i a b hs
                injection hok with h1 h2
                injection h1 with ha
                subst ha
                obtain ⟨_, _, _, hnameeq, _⟩ := saveExisting_spec hs
                have hgen := saveExisting_name_changed hs hname
                rw [← slugify_eq_specBaseSlug, hnameeq]
                exact genSlug_chosen store m.id _ _ hgen

/-- Witness for C4: creating a listing named "GPT 4!" against a store that
already holds the slug `gpt-4` yields `gpt-4-1`. -/
theorem slug_generation_algorithm_witness :
    slugChosen (slugTaken storeColl sampleId3)
      (specBaseSlug ({ sampleListing with id := sampleId3, name := "GPT 4!", slug := "gpt-4-1" } : Listing).name)
      ({ sampleListing with id := sampleId3, name := "GPT 4!", slug := "gpt-4-1" } : Listing).slug :=
  (slug_generation_algorithm storeColl).2.1 "u" sampleId3 samplePayload 0
    { sampleListing with id := sampleId3, name := "GPT 4!", slug := "gpt-4-1" }
    (storeColl ++
      [{ sampleListing with id := sampleId3, name := "GPT 4!", slug := "gpt-4-1" }])
    (by decide)

/-! ## C9 -/

/-- Properties of a slug delivered by the collision loop: base-or-suffix
shape; non-emptiness and the slug pattern when the lower-cased name has an
alphanumeric character; freedom from every stored slug (given that no
stored listing carries the new id). -/
theorem slug_props (store : List Listing) (newId name s : String)
    (hch : slugChosen (slugTaken store newId) (slugify name) s)
    (hfresh : ∀ x ∈ store, x.id ≠ newId) :
    (s = slugify name ∨ ∃ k, 1 ≤ k ∧ s = slugify name ++ "-" ++ Nat.repr k)
    ∧ ((jsToLower name).data.any isSlugChar = true →
        s ≠ "" ∧ (slugPattern s = true ∨
          ∃ k, 1 ≤ k ∧ s = slugify name ++ "-" ++ Nat.repr k))
    ∧ (∀ x ∈ store, x.slug ≠ s) := by
  have hfree : slugTaken store newId s = false := by
    rcases hch with ⟨hf, hsb⟩ | ⟨_, k, _, hsk, hf, _⟩
    · rw [hsb]; exact hf
    · exact hf
  refine ⟨?_, ?_, ?_⟩
  · rcases hch with ⟨_, hsb⟩ | ⟨_, k, hk1, hsk, _, _⟩
    · exact Or.inl hsb
    · exact Or.inr ⟨k, hk1, hsk⟩
  · intro hany
    rcases hch with ⟨_, hsb⟩ | ⟨_, k, hk1, hsk, _, _⟩
    · obtain ⟨hne, hpat⟩ := slugify_shape name hany
      exact ⟨hsb ▸ hne, Or.inl (hsb ▸ hpat)⟩
    · constructor
      · have hposlen : 0 < s.length := by
          rw [hsk, String.length_append, String.length_append]
          have h1 : ("-" : String).length = 1 := rfl
          omega
        intro hempty
        rw [hempty] at hposlen
        exact absurd hposlen (by decide)
      · exact Or.inr ⟨k, hk1, hsk⟩
  · intro x hx hslugeq
    unfold slugTaken at hfree
    have hx2 := List.any_eq_false.mp hfree x hx
    apply hx2
    simp [hslugeq, hfresh x hx]

/-- Counterexample to **C9** as stated: the name `"!!!"` passes payload
validation (non-empty, ≤ 100 characters) but contains no alphanumeric
character, so the base slug is empty and — with no collision — the
persisted listing's slug is the empty string, violating both the non-empty
invariant and the claimed slug shape. -/
theorem empty_slug_counterexample :
    createListing [] "u" sampleId sampleBadNamePayload 0 =
      (.ok { sampleListing with name := "!!!", slug := "" },
       [{ sampleListing with name := "!!!", slug := "" }])
    ∧ ({ sampleListing with name := "!!!", slug := "" } : Listing).slug = ""
    ∧ slugify "!!!" = "" :=
  ⟨by decide, by decide, by decide⟩

theorem applyPayload_slug (m : Listing) (v : Payload) :
    (applyPayload m v).slug = m.slug := rfl

theorem genSlug_free {store : List Listing} {selfId name s : String}
    (h : genSlug store selfId name = some s) :
    slugTaken store selfId s = false := by
  rcases genSlug_chosen store selfId name s h with ⟨hf, hsb⟩ | ⟨_, k, _, hsk, hf, _⟩
  · rw [hsb]; exact hf
  · exact hf

/-- Replacing the (unique-id) stored document by a saved one whose slug
collides with no *other* stored slug keeps the stored slugs pairwise
distinct. -/
theorem replaceById_pairwise_slug {store : List Listing} {m' : Listing}
    (hids : (store.map Listing.id).Nodup)
    (hdist : store.Pairwise (fun a b => a.slug ≠ b.slug))
    (hfree : ∀ x ∈ store, x.id ≠ m'.id → x.slug ≠ m'.slug) :
    (replaceById store m').Pairwise (fun a b => a.slug ≠ b.slug) := by
  unfold replaceById
  rw [List.pairwise_map]
  have hcomb := (List.pairwise_map.mp hids).and hdist
  refine hcomb.imp_of_mem ?_
  intro a b ha hb hab
  obtain ⟨hidne, hslugne⟩ := hab
  by_cases haid : (a.id == m'.id) = true
  · rw [if_pos haid]
    rw [beq_iff_eq] at haid
    have hbne : b.id ≠ m'.id := fun hcontra => hidne (haid.trans hcontra.symm)
    rw [if_neg (by simp [hbne])]
    exact fun hcontra => hfree b hb hbne hcontra.symm
  · rw [if_neg haid]
    have hane : a.id ≠ m'.id := by simpa using haid
    by_cases hbid : (b.id == m'.id) = true
    · rw [if_pos hbid]
      exact hfree a ha hane
    · rw [if_neg hbid]
      exact hslugne

/-- `save()` on an existing document (one whose id and current slug belong
to a stored listing) keeps the stored slugs pairwise distinct: either the
hook regenerates the slug — free among all other listings by the probe —
or the document keeps the slug that stored listing already held. -/
theorem saveExisting_pairwise_slug {store : List Listing} {orig m2 m' : Listing}
    {store' : List Listing}
    (hs : saveExisting store orig m2 = some (m', store'))
    (hy : ∃ y ∈ store, y.id = m2.id ∧ y.slug = m2.slug)
    (hids : (store.map Listing.id).Nodup)
    (hdist : store.Pairwise (fun a b => a.slug ≠ b.slug)) :
    store'.Pairwise (fun a b => a.slug ≠ b.slug) := by
  unfold saveExisting at hs
  split at hs
  · split at hs
    · exact absurd hs (by simp)
    · rename_i s hg
      simp only [Option.some.injEq, Prod.mk.injEq] at hs
      obtain ⟨ha, hb⟩ := hs
      subst ha
      subst hb
      apply replaceById_pairwise_slug hids hdist
      intro x hx hxid hcontra
      have hfree := genSlug_free hg
      unfold slugTaken at hfree
      have hx2 := List.any_eq_false.mp hfree x hx
      apply hx2
      simp only [Bool.and_eq_true, beq_iff_eq, bne_iff_ne, ne_eq]
      exact ⟨hcontra, fun hc => hxid hc⟩
  · rename_i hcond
    simp only [Option.some.injEq, Prod.mk.injEq] at hs
    obtain ⟨ha, hb⟩ := hs
    subst ha
    subst hb
    apply replaceById_pairwise_slug hids hdist
    intro x hx hxid hcontra
    obtain ⟨y, hymem, hyid, hyslug⟩ := hy
    have hxy : x ≠ y := fun hxe => hxid (by rw [hxe, hyid])
    have hcomb := (List.pairwise_map.mp hids).and hdist
    have hsym : Symmetric (fun a b : Listing => a.id ≠ b.id ∧ a.slug ≠ b.slug) :=
      fun a b hh => ⟨Ne.symm hh.1, Ne.symm hh.2⟩
    exact ((hcomb.forall hsym) hx hymem hxy).2 (hcontra.trans hyslug.symm)

/-- **C9 (amended).** Shape: every slug persisted by creation is the base
slug or the base slug with a numeric collision suffix, and it is non-empty
and matches `^[a-z0-9]+(-[a-z0-9]+)*$` (or that shape with the suffix)
whenever the lower-cased name contains at least one `[a-z0-9]` character —
a validation-accepted name with no such character yields an empty slug, see
the counterexample.  Uniqueness: on a store with unique ids and pairwise
distinct slugs, every persisting operation — creation with a fresh id,
owner update, owner deletion, and the admin status route (all of which save
through the same pre-save hook) — leaves the stored slugs pairwise
distinct. -/
theorem slug_shape_and_uniqueness (store : List Listing)
    (hids : (store.map Listing.id).Nodup)
    (hdist : store.Pairwise (fun a b => a.slug ≠ b.slug)) :
    (∀ uid newId p now m' store',
      createListing store uid newId p now = (.ok m', store') →
      (∀ x ∈ store, x.id ≠ newId) →
      (m'.slug = slugify m'.name ∨
        ∃ k, 1 ≤ k ∧ m'.slug = slugify m'.name ++ "-" ++ Nat.repr k)
      ∧ ((jsToLower m'.name).data.any isSlugChar = true →
          m'.slug ≠ "" ∧ (slugPattern m'.slug = true ∨
            ∃ k, 1 ≤ k ∧ m'.slug = slugify m'.name ++ "-" ++ Nat.repr k))
      ∧ store' = store ++ [m']
      ∧ store'.Pairwise (fun a b => a.slug ≠ b.slug))
    ∧ (∀ uid idStr p m' store',
      updateListing store uid idStr p = (.ok m', store') →
      store'.Pairwise (fun a b => a.slug ≠ b.slug))
    ∧ (∀ uid idStr r store',
      deleteListing store uid idStr = (r, store') →
      store'.Pairwise (fun a b => a.slug ≠ b.slug))
    ∧ (∀ idStr st rr m' store',
      adminSetStatus store idStr st rr = (.ok m', store') →
      store'.Pairwise (fun a b => a.slug ≠ b.slug)) := by
  refine ⟨?_, ?_, ?_, ?_⟩
  · -- creation
    intro uid newId p now m' store' hok hfresh
    unfold createListing at hok
    cases hv : validatePayload p <;> rw [hv] at hok
    · exact absurd hok (by simp)
    · rename_i v
      dsimp only at hok
      split at hok
      · exact absurd hok (by simp)
      · split at hok
        · exact absurd hok (by simp)
        · rename_i s hg
          injection hok with h1 h2
          injection h1 with ha
          subst ha
          subst h2
          have hch := genSlug_chosen store newId _ s hg
          have hp := slug_props store newId _ s hch hfresh
          refine ⟨hp.1, hp.2.1, rfl, ?_⟩
          rw [List.pairwise_append]
          refine ⟨hdist, by simp, ?_⟩
          intro a ha b hb
          rw [List.mem_singleton] at hb
          subst hb
          exact hp.2.2 a ha
  · -- owner update
    intro uid idStr p m' store' hok
    unfold updateListing at hok
    rw [findOwnedCast] at hok
    split at hok
    · exact absurd hok (by simp)
    · exact absurd hok (by simp)
    · rename_i mf heq
      split at heq
      case isFalse => exact absurd heq (by simp)
      case isTrue =>
        injection heq with hsome
        rw [findOwned] at hsome
        have hmf : mf ∈ store := List.mem_of_find?_eq_some hsome
        dsimp only at hok
        split at hok
        · exact absurd hok (by simp)
        · split at hok
          · exact absurd hok (by simp)
          · rename_i v hv
            by_cases hrej : ((applyPayload mf v).status == "rejected") = true
            · rw [if_pos hrej] at hok
              split at hok
              · exact absurd hok (by simp)
              · rename_i a b hs
                injection hok with h1 h2
                injection h1 with ha
                subst ha
                subst h2
                exact saveExisting_pairwise_slug hs ⟨mf, hmf, rfl, rfl⟩ hids hdist
            · rw [if_neg hrej] at hok
              split at hok
              · exact absurd hok (by simp)
              · rename_i a b hs
                injection hok with h1 h2
                injection h1 with ha
                subst ha
                subst h2
                exact saveExisting_pairwise_slug hs ⟨mf, hmf, rfl, rfl⟩ hids hdist
  · -- owner deletion
    intro uid idStr r store' hok
    unfold deleteListing at hok
    split at hok <;> (injection hok with h1 h2; subst h2)
    · exact hdist
    · exact hdist
    · exact List.Pairwise.sublist (List.filter_sublist store) hdist
  · -- admin status route
    intro idStr st rr m' store' hok
    unfold adminSetStatus at hok
    cases st with
    | none => exact absurd hok (by simp)
    | some t =>
      dsimp only at hok
      by_cases h1 : (["pending", "approved", "rejected"].contains t) = true
      · rw [if_neg (by rw [h1]; decide)] at hok
        by_cases h2 : (some t == some "rejected" && rr.getD "" == "") = true
        · rw [if_pos h2] at hok
          exact absurd hok (by simp)
        · rw [if_neg h2] at hok
          rw [findByIdCast] at hok
          split at hok
          · exact absurd hok (by simp)
          · exact absurd hok (by simp)
          · rename_i mf heq
            split at heq
            · injection heq with hsome
              rw [listingById] at hsome
              have hmf : mf ∈ store := List.mem_of_find?_eq_some hsome
              split at hok
              · exact absurd hok (by simp)
              · rename_i a b hs
                injection hok with h1 h2
                injection h1 with ha
                subst ha
                subst h2
                exact saveExisting_pairwise_slug hs ⟨mf, hmf, rfl, rfl⟩ hids hdist
            · exact absurd heq (by simp)
      · have h1f : (["pending", "approved", "rejected"].contains t) = false := by
          cases hx : (["pending", "approved", "rejected"].contains t) with
          | false => rfl
          | true => exact absurd hx h1
        rw [if_pos (by rw [h1f]; decide)] at hok
        exact absurd hok (by simp)

/-- Witness for C9: creation in the empty store and an owner update of the
rejected sample listing both leave the stored slugs pairwise distinct. -/
theorem slug_shape_and_uniqueness_witness :
    (([] : List Listing) ++ [{ sampleListing with name := "GPT 4!" }]).Pairwise
      (fun a b : Listing => a.slug ≠ b.slug)
    ∧ ([{ sampleListing with name := "GPT 4!" }] : List Listing).Pairwise
      (fun a b : Listing => a.slug ≠ b.slug) := by
  have hc := ((slug_shape_and_uniqueness [] (by decide) List.Pairwise.nil).1
    "u" sampleId samplePayload 0 { sampleListing with name := "GPT 4!" }
    ([] ++ [{ sampleListing with name := "GPT 4!" }]) (by decide)
    (by simp)).2.2.2
  have hu := (slug_shape_and_uniqueness [sampleRejected] (by decide)
    (by simp)).2.1 "u" sampleId samplePayload
    { sampleListing with name := "GPT 4!" }
    [{ sampleListing with name := "GPT 4!" }] (by decide)
  exact ⟨hc, hu⟩
